import Mathlib

/-!
Shallow embedding of `site/scripts/generate_tarot_background.py`.

The script loads a directory of PNG card images, resizes each to a common
target height, lays the cards out in columns with random vertical jitter,
alpha-composites them onto a transparent RGBA canvas, and writes the result.

Modelling conventions:
* Python integers are `Int` (pixel dimensions that are structurally
  non-negative are `Nat`).
* The Python `random` module is an opaque external primitive; it is modelled
  by an explicit deterministic generator (`lcgNext`) threaded as state, with
  `random.randint(a, b)` and `random.choice(seq)` as state-passing functions
  that reproduce the primitives' error behaviour (`randint` with an empty
  range raises `ValueError`; `choice` on an empty sequence raises
  `IndexError`).
* Fallible Python code (raised exceptions, division by zero in
  `math.ceil((width + column_gap) / column_step)`) is `Except RunError`.
* The unbounded `while y < height` loop is given explicit fuel; running out
  of fuel is the distinguished `RunError.outOfFuel`, which never corresponds
  to a Python behaviour and is proved unreachable under the documented
  preconditions.
* PIL primitives (decode, LANCZOS resize, alpha_composite) are opaque
  per the spec; they are modelled by concrete deterministic pixel functions
  (`resizePix`, `overPixel`) so that the pipeline is executable.
-/

/-- RGBA pixel: red, green, blue, alpha channels. -/
abbrev Pixel := Nat × Nat × Nat × Nat

/-- A canvas or card pixel buffer: a list of rows of pixels. -/
abbrev PixBuf := List (List Pixel)

/-- Errors a run of the script can produce.  `fileNotFound` models Python's
`FileNotFoundError`, `indexError` models `IndexError` (empty-sequence
`random.choice` or `cards[0]`), `valueError` models `ValueError`
(`random.randint` with an empty range), `zeroDivision` models
`ZeroDivisionError`, and `outOfFuel` is the modelling artifact for the
fuelled while-loop. -/
inductive RunError where
  | fileNotFound
  | indexError
  | valueError
  | zeroDivision
  | outOfFuel
deriving DecidableEq

/-- Deterministic stand-in for the opaque `random` module's generator: a
linear congruential step on a `Nat` state, reduced mod 2^32. -/
def lcgNext (s : Nat) : Nat :=
  (s * 1103515245 + 12345) % 4294967296

/-- Model of `random.randint(a, b)`: draws one value from the generator,
uniform over `[a, b]`; raises `ValueError` when the range is empty
(`a > b`), exactly as Python's `randint` does. -/
def randintM (a b : Int) (s : Nat) : Except RunError (Int × Nat) :=
  if a ≤ b then
    let s1 := lcgNext s
    Except.ok (a + ((s1 % (b - a + 1).toNat : Nat) : Int), s1)
  else
    Except.error RunError.valueError

/-- Model of `random.choice(seq)` for a sequence of length `n`: draws one
value and returns an index in `[0, n)`; raises `IndexError` when the
sequence is empty. -/
def choiceM (n : Nat) (s : Nat) : Except RunError (Nat × Nat) :=
  if n = 0 then Except.error RunError.indexError
  else
    let s1 := lcgNext s
    Except.ok (s1 % n, s1)

/-- One recorded card placement: index of the chosen card in the loaded
list, and the destination x and y on the canvas. -/
structure Placement where
  cardIdx : Nat
  x : Int
  y : Int
deriving DecidableEq

/-- The per-column `while y < height` loop of `composite_background`:

    while y < height:
        card = random.choice(cards)
        dest_y = int(y)
        if dest_y >= 0:
            canvas.alpha_composite(card, (x, dest_y))
        jitter = random.randint(-row_gap, row_gap)
        y += card_h + row_gap + jitter

It returns the placements recorded by this column (in order) and the
generator state after the column.  `fuel` bounds the number of iterations;
exhausting it while `y < canvasH` still holds yields `outOfFuel`. -/
def columnLoop (fuel : Nat) (numCards : Nat) (x : Int) (cardH rowGap canvasH : Int)
    (y : Int) (s : Nat) : Except RunError (List Placement × Nat) :=
  match fuel with
  | 0 => if y < canvasH then Except.error RunError.outOfFuel else Except.ok ([], s)
  | Nat.succ fuel =>
    if y < canvasH then
      match choiceM numCards s with
      | Except.error e => Except.error e
      | Except.ok (ci, s1) =>
        match randintM (-rowGap) rowGap s1 with
        | Except.error e => Except.error e
        | Except.ok (j, s2) =>
          if 0 ≤ y then
            (columnLoop fuel numCards x cardH rowGap canvasH (y + cardH + rowGap + j) s2).map
              (fun r => (⟨ci, x, y⟩ :: r.1, r.2))
          else
            columnLoop fuel numCards x cardH rowGap canvasH (y + cardH + rowGap + j) s2
    else Except.ok ([], s)

/-- The `for col, x in enumerate(columns)` loop: for each column x-offset,
start `y = -random.randint(0, card_h)` and run the column loop.  The fuel
given to each column, `(canvasH + cardH).toNat + 1`, is sufficient whenever
`cardH ≥ 1` and `rowGap ≥ 0` (proved below). -/
def layoutColumns (xs : List Int) (numCards : Nat) (cardH rowGap canvasH : Int)
    (s : Nat) : Except RunError (List Placement × Nat) :=
  match xs with
  | [] => Except.ok ([], s)
  | x :: rest =>
    match randintM 0 cardH s with
    | Except.error e => Except.error e
    | Except.ok (r, s1) =>
      match columnLoop ((canvasH + cardH).toNat + 1) numCards x cardH rowGap canvasH (-r) s1 with
      | Except.error e => Except.error e
      | Except.ok (ps, s2) =>
        match layoutColumns rest numCards cardH rowGap canvasH s2 with
        | Except.error e => Except.error e
        | Except.ok (qs, s3) => Except.ok (ps ++ qs, s3)

/-- Exact integer ceiling division, modelling `math.ceil(a / b)` on Python
ints (the source computes it through float division; for the integer
magnitudes involved the float result is exact, so the rational ceiling is
the faithful model).  Requires `b ≠ 0`; the caller models Python's
`ZeroDivisionError` separately. -/
def ceilDiv (a b : Int) : Int := -((-a).fdiv b)

/-- The column x-offsets computed by `composite_background`:

    for col in range(column_count):
        if col == 0: x = 0
        else: x = col * column_step
        columns.append(min(max(int(x), 0), max(width - card_w, 0)))
-/
def columnOffsets (width cardW step : Int) (count : Nat) : List Int :=
  (List.range count).map fun col =>
    let x : Int := if col = 0 then 0 else Int.ofNat col * step
    min (max x 0) (max (width - cardW) 0)

/-- A loaded card image: in-memory RGBA buffer with its dimensions.  The
`name` field records the source filename (the source keeps cards in a list
ordered by filename; the name is carried as ghost data so ordering can be
stated). -/
structure Card where
  name : String
  width : Nat
  height : Nat
  pix : PixBuf
deriving DecidableEq

/-- Pixel lookup in a buffer, transparent outside the stored rows/cells. -/
def getPixel (pix : PixBuf) (r c : Nat) : Pixel :=
  ((pix.get? r).bind (fun row => row.get? c)).getD (0, 0, 0, 0)

/-- Deterministic stand-in for the opaque PIL resampling filter
(`img.resize(new_size, Image.LANCZOS)`): nearest-neighbour sampling.  The
real filter is an external primitive the spec leaves opaque; any
deterministic resampler yields the same dimension and determinism facts. -/
def resizePix (pix : PixBuf) (srcW srcH newW newH : Nat) : PixBuf :=
  (List.range newH).map fun r =>
    (List.range newW).map fun c =>
      getPixel pix (r * srcH / newH) (c * srcW / newW)

/-- Deterministic stand-in for PIL's opaque straight-alpha "over" blend of a
source pixel onto a destination pixel (`Image.alpha_composite`). -/
def overPixel (dst src : Pixel) : Pixel :=
  let outA := src.2.2.2 + dst.2.2.2 * (255 - src.2.2.2) / 255
  if outA = 0 then (0, 0, 0, 0)
  else
    ((src.1 * src.2.2.2 + dst.1 * dst.2.2.2 * (255 - src.2.2.2) / 255) / outA,
     (src.2.1 * src.2.2.2 + dst.2.1 * dst.2.2.2 * (255 - src.2.2.2) / 255) / outA,
     (src.2.2.1 * src.2.2.2 + dst.2.2.1 * dst.2.2.2 * (255 - src.2.2.2) / 255) / outA,
     outA)

/-- Model of `canvas.alpha_composite(card, (x, y))`: blends the card's
buffer over the canvas with its top-left corner at `(x, y)`; parts of the
card that fall past the canvas's bottom or right edges are clipped. -/
def compositeAt (canvas : PixBuf) (card : Card) (x y : Nat) : PixBuf :=
  canvas.mapIdx fun r row =>
    row.mapIdx fun c p =>
      if y ≤ r ∧ r < y + card.height ∧ x ≤ c ∧ c < x + card.width then
        overPixel p (getPixel card.pix (r - y) (c - x))
      else p

/-- `Image.new("RGBA", (width, height), (0, 0, 0, 0))`: a fully transparent
canvas. -/
def blankCanvas (w h : Nat) : PixBuf :=
  List.replicate h (List.replicate w (0, 0, 0, 0))

/-- Applies the recorded placements to the canvas in order (the source
composites during the loop; placements are applied here in the identical
order, so the resulting buffer is the same). -/
def applyPlacements (cards : List Card) (canvas : PixBuf) (ps : List Placement) : PixBuf :=
  ps.foldl
    (fun cv p =>
      match cards.get? p.cardIdx with
      | some card => compositeAt cv card p.x.toNat p.y.toNat
      | none => cv)
    canvas

/-- Result of `composite_background`: the column x-offsets and the ordered
placement sequence are the intermediate layout (exposed so the layout can
be specified), `canvas` is the composited buffer the Python function
returns, and `rng` is the generator state after the run. -/
structure BgResult where
  columns : List Int
  placements : List Placement
  canvas : PixBuf
  rng : Nat
deriving DecidableEq

/-- Model of `composite_background(cards, width, height, column_gap,
row_gap)` with the generator state `s` made explicit:

    canvas = Image.new("RGBA", (width, height), (0, 0, 0, 0))
    sample_card = cards[0]
    card_w, card_h = sample_card.size
    column_step = card_w + column_gap
    column_count = max(1, math.ceil((width + column_gap) / column_step))
    ... column offsets ...
    ... per-column placement loop, compositing as it goes ...
-/
def composite_background (cards : List Card) (width height columnGap rowGap : Int)
    (s : Nat) : Except RunError BgResult :=
  match cards with
  | [] => Except.error RunError.indexError
  | sample :: _ =>
    let cardW : Int := sample.width
    let cardH : Int := sample.height
    let step : Int := cardW + columnGap
    if step = 0 then Except.error RunError.zeroDivision
    else
      let count : Int := max 1 (ceilDiv (width + columnGap) step)
      let columns := columnOffsets width cardW step count.toNat
      match layoutColumns columns cards.length cardH rowGap height s with
      | Except.error e => Except.error e
      | Except.ok (ps, s1) =>
        Except.ok
          { columns := columns
            placements := ps
            canvas := applyPlacements cards (blankCanvas width.toNat height.toNat) ps
            rng := s1 }

/-- A file in the input directory, as seen by the Card Loader: its name and
the decoded image (dimensions plus RGBA pixel buffer, the result of
`Image.open` + `convert("RGBA")`). -/
structure SrcFile where
  name : String
  width : Nat
  height : Nat
  pix : PixBuf
deriving DecidableEq

/-- Whether a directory entry matches the loader's `glob("*.png")`: its
name ends in `.png` (stated on the character list so it is kernel-computable). -/
def isPng (f : SrcFile) : Bool := (".png".data).isSuffixOf f.name.data

/-- Lexicographic comparison of filenames by code point, the order Python's
`sorted` uses on the globbed paths (stated on character lists so it is
kernel-computable). -/
def nameLe : List Char → List Char → Bool
  | [], _ => true
  | _ :: _, [] => false
  | a :: as, b :: bs => if a = b then nameLe as bs else decide (a < b)

/-- Insert a file into a list sorted by name. -/
def insertByName (f : SrcFile) : List SrcFile → List SrcFile
  | [] => [f]
  | g :: gs => if nameLe f.name.data g.name.data then f :: g :: gs else g :: insertByName f gs

/-- Model of Python's `sorted(...)` on the globbed paths: sorts the files by
name.  (Python's sort is stable; filenames within one directory are
distinct, so stability is unobservable and a plain insertion sort is an
equivalent model.) -/
def sortByName : List SrcFile → List SrcFile
  | [] => []
  | f :: fs => insertByName f (sortByName fs)

/-- Floor of log2 on positive naturals, by structural recursion on a fuel
bound (`fuel = n` always suffices, so the function is total and exact). -/
def log2Fuel : Nat → Nat → Nat
  | 0, _ => 0
  | Nat.succ fuel, n => if 2 ≤ n then log2Fuel fuel (n / 2) + 1 else 0

/-- `log2Floor n = ⌊log2 n⌋` for `n ≥ 1` (and 0 at 0). -/
def log2Floor (n : Nat) : Nat := log2Fuel n n

/-- `⌊log2 (n / d)⌋` for positive naturals `n, d`: the true value is
`log2Floor n - log2Floor d` or one less; one scaled comparison decides. -/
def floorLog2Rat (n d : Nat) : Int :=
  let e0 : Int := (log2Floor n : Int) - (log2Floor d : Int)
  if d * 2 ^ e0.toNat ≤ n * 2 ^ (-e0).toNat then e0 else e0 - 1

/-- Exact model of the IEEE-754 binary64 (double) value obtained by
correctly rounding the non-negative rational `n / d`: round to nearest,
ties to even, 53-bit significand, unbounded exponent (overflow and
subnormals lie far outside the pixel magnitudes this script handles).
The value is returned as a (numerator, denominator) pair whose
denominator is a power of two.  `n = 0` gives 0; `d = 0` is a guard
(Python would raise `ZeroDivisionError`, impossible for decoded images,
whose height is at least 1). -/
def roundFloat (n d : Nat) : Nat × Nat :=
  if n = 0 ∨ d = 0 then (0, 1)
  else
    let e := floorLog2Rat n d
    let s : Int := 52 - e
    let N := n * 2 ^ s.toNat
    let D := d * 2 ^ (-s).toNat
    let m0 := N / D
    let r := N % D
    let m :=
      if D < 2 * r then m0 + 1
      else if 2 * r < D then m0
      else if m0 % 2 = 0 then m0 else m0 + 1
    if 0 ≤ s then (m, 2 ^ s.toNat) else (m * 2 ^ (-s).toNat, 1)

/-- Model of Python's `int(w * (t / h))` on non-negative ints exactly as
CPython evaluates it: `t / h` is the correctly rounded binary64 quotient
of the two integers, the multiplication by `w` (whose conversion to
binary64 is exact at pixel magnitudes) is again correctly rounded, and
`int(...)` truncates toward zero.  The result can differ from the exact
proportional floor `w * t / h`: e.g. at `w = h = 100`, `t = 29` the float
product is 28.999999999999996 and the result 28, where the exact floor is
29. -/
def pyResizeWidth (w t h : Nat) : Nat :=
  let scale := roundFloat t h
  let prod := roundFloat (w * scale.1) scale.2
  prod.1 / prod.2

/-- Resize one decoded file to the target height, preserving aspect ratio:

    scale = target_height / img.height
    new_size = (int(img.width * scale), target_height)
    resized = img.resize(new_size, Image.LANCZOS)

The width is `int(img.width * (target_height / img.height))` computed in
IEEE-754 binary64 arithmetic, modelled exactly by `pyResizeWidth`; it can
be one pixel below the exact proportional floor. -/
def resizeCard (targetHeight : Nat) (f : SrcFile) : Card :=
  let w := pyResizeWidth f.width targetHeight f.height
  { name := f.name
    width := w
    height := targetHeight
    pix := resizePix f.pix f.width f.height w targetHeight }

/-- Model of `load_cards(tarot_dir, target_height)`: glob `*.png`, sort by
filename, fail with `FileNotFoundError` when no file matches, else decode
and resize each in order. -/
def load_cards (files : List SrcFile) (targetHeight : Nat) :
    Except RunError (List Card) :=
  let card_paths := sortByName (files.filter isPng)
  if card_paths = [] then Except.error RunError.fileNotFound
  else Except.ok (card_paths.map (resizeCard targetHeight))

/-- Model of `main()` after argument parsing, with the seed made explicit
(`random.seed(seed)` sets the generator state): load the cards, composite
the background, and hand the resulting canvas (with its layout) to the
Writer.  An error anywhere aborts the pipeline: the `Except` value is
`error` and no canvas exists to be written. -/
def runPipeline (files : List SrcFile) (targetHeight : Nat)
    (width height columnGap rowGap : Int) (seed : Nat) :
    Except RunError BgResult :=
  match load_cards files targetHeight with
  | Except.error e => Except.error e
  | Except.ok cards => composite_background cards width height columnGap rowGap seed

deriving instance DecidableEq for Except

/-- Concrete inputs used by the witnesses: a 150-pixel-wide card of height
1 with an empty pixel buffer, and a 1x1 card. -/
def wideCard : Card := { name := "c.png", width := 150, height := 1, pix := [] }

def tinyCard : Card := { name := "c.png", width := 1, height := 1, pix := [] }

def tinyFile : SrcFile := { name := "a.png", width := 1, height := 1, pix := [] }

def pngDir : List SrcFile :=
  [⟨"b.png", 2, 1, []⟩, ⟨"x.jpg", 9, 9, []⟩, ⟨"a.png", 1, 1, []⟩]

/-- Helper: the number of column offsets equals the requested count. -/
theorem length_columnOffsets (w cw step : Int) (n : Nat) :
    (columnOffsets w cw step n).length = n := by
  unfold columnOffsets
  rw [List.length_map, List.length_range]

/-- C1: for a fixed seed and identical inputs (cards, canvas width/height,
column gap, row gap), two runs of the layout-and-composite pipeline produce
identical results: the column offsets, the sequence of placements (card
choice, x, y) and the composited canvas are a deterministic function of the
seed and the inputs. -/
theorem pipeline_deterministic (files files2 : List SrcFile) (t t2 : Nat)
    (w h cg rg w2 h2 cg2 rg2 : Int) (s s2 : Nat)
    (hf : files = files2) (ht : t = t2) (hw : w = w2) (hh : h = h2)
    (hcg : cg = cg2) (hrg : rg = rg2) (hs : s = s2) :
    runPipeline files t w h cg rg s = runPipeline files2 t2 w2 h2 cg2 rg2 s2 := by
  subst hf; subst ht; subst hw; subst hh; subst hcg; subst hrg; subst hs
  rfl

/-- Witness for C1 at a concrete input. -/
theorem pipeline_deterministic_witness :
    runPipeline [tinyFile] 1 2 2 0 0 42 = runPipeline [tinyFile] 1 2 2 0 0 42 :=
  pipeline_deterministic [tinyFile] [tinyFile] 1 1 2 2 0 0 2 2 0 0 42 42
    rfl rfl rfl rfl rfl rfl rfl

/-- C7: with zero matching image files the Card Loader fails with the
NotFound error, and the whole pipeline returns that error: the Compositor
and Writer are never invoked (no canvas value exists to hand on). -/
theorem loader_notFound_aborts (files : List SrcFile) (t : Nat)
    (w h cg rg : Int) (s : Nat)
    (hempty : files.filter isPng = []) :
    load_cards files t = Except.error RunError.fileNotFound ∧
    runPipeline files t w h cg rg s = Except.error RunError.fileNotFound := by
  have h1 : load_cards files t = Except.error RunError.fileNotFound := by
    simp [load_cards, hempty, sortByName]
  exact ⟨h1, by simp [runPipeline, h1]⟩

/-- Witness for C7: a directory containing only a non-PNG file. -/
theorem loader_notFound_aborts_witness :
    load_cards [⟨"a.jpg", 1, 1, []⟩] 1 = Except.error RunError.fileNotFound ∧
    runPipeline [⟨"a.jpg", 1, 1, []⟩] 1 2 2 0 0 0 = Except.error RunError.fileNotFound :=
  loader_notFound_aborts [⟨"a.jpg", 1, 1, []⟩] 1 2 2 0 0 0 (by decide)

/-- C3: for a non-empty card list (and a non-degenerate pitch, without
which the source raises `ZeroDivisionError`), the column pitch used by
`composite_background` is the first card's resized width plus the column
gap, and the number of columns is the ceiling of
(canvas width + column gap) / pitch, with a minimum of 1: the computed
offsets are exactly `columnOffsets` at that pitch, and their number equals
`max 1 (ceilDiv (w + columnGap) pitch)`. -/
theorem column_geometry (c : Card) (rest : List Card) (w h cg rg : Int) (s : Nat)
    (r : BgResult)
    (hstep : (c.width : Int) + cg ≠ 0)
    (hrun : composite_background (c :: rest) w h cg rg s = Except.ok r) :
    r.columns =
      columnOffsets w c.width ((c.width : Int) + cg)
        (max 1 (ceilDiv (w + cg) ((c.width : Int) + cg))).toNat ∧
    (r.columns.length : Int) = max 1 (ceilDiv (w + cg) ((c.width : Int) + cg)) := by
  simp only [composite_background] at hrun
  rw [if_neg hstep] at hrun
  cases hl : layoutColumns
      (columnOffsets w c.width ((c.width : Int) + cg)
        (max 1 (ceilDiv (w + cg) ((c.width : Int) + cg))).toNat)
      (c :: rest).length c.height rg h s with
  | error e => rw [hl] at hrun; cases hrun
  | ok p =>
    rw [hl] at hrun
    cases hrun
    constructor
    · rfl
    · rw [length_columnOffsets]
      have h1 : (1 : Int) ≤ max 1 (ceilDiv (w + cg) ((c.width : Int) + cg)) := le_max_left _ _
      omega

/-- Witness for C3 at the spec's own example: canvas width 600, card width
150, column gap 10 gives pitch 160, column count ceil(610/160) = 4 and
offsets [0, 160, 320, 450]. -/
theorem column_geometry_witness :
    ([0, 160, 320, 450] : List Int) =
      columnOffsets 600 150 ((150 : Int) + 10)
        (max 1 (ceilDiv (600 + 10) ((150 : Int) + 10))).toNat ∧
    (([0, 160, 320, 450] : List Int).length : Int) =
      max 1 (ceilDiv (600 + 10) ((150 : Int) + 10)) :=
  column_geometry wideCard [] 600 1 10 0 0 _ (by decide) rfl

/-- C2 counterexample: with canvas width 100 and a reference card of width
150 (card wider than the canvas), `composite_background` produces the
single column offset 0, and 0 plus the card width 150 exceeds the canvas
width 100 — so "every column's x-offset plus the reference card width does
not exceed the canvas width", and the claimed clamp interval
`[0, canvas width − card width]` (here `[0, −50]`), fail as stated. -/
theorem column_overflow_cex :
    (composite_background [wideCard] 100 1 10 0 0).map BgResult.columns =
      Except.ok [0] ∧ ¬ ((0 : Int) + 150 ≤ 100) :=
  ⟨rfl, by decide⟩

/-- C2 (amended): column 0's x-offset is 0 and column i's is `i × pitch`
clamped into `[0, max(canvas width − card width, 0)]`; the offsets are
monotonically non-decreasing; and whenever the reference card width is at
most the canvas width, every column's x-offset plus the card width does
not exceed the canvas width. -/
theorem columnOffsets_props (w cw step : Int) (n : Nat) :
    (0 < n → (columnOffsets w cw step n).head? = some 0) ∧
    List.Pairwise (fun a b => a ≤ b) (columnOffsets w cw step n) ∧
    (∀ x ∈ columnOffsets w cw step n, 0 ≤ x ∧ x ≤ max (w - cw) 0) ∧
    (cw ≤ w → ∀ x ∈ columnOffsets w cw step n, x + cw ≤ w) := by
  have hM : (0 : Int) ≤ max (w - cw) 0 := le_max_right _ _
  have hco : columnOffsets w cw step n =
      (List.range n).map
        (fun col : Nat => min (max (Int.ofNat col * step) 0) (max (w - cw) 0)) := by
    unfold columnOffsets
    refine List.map_congr_left ?_
    intro col _
    rcases Nat.eq_zero_or_pos col with h0 | h0
    · subst h0; simp
    · simp [Nat.pos_iff_ne_zero.mp h0]
  have hmono : ∀ i j : Nat, i ≤ j →
      min (max (Int.ofNat i * step) 0) (max (w - cw) 0) ≤
        min (max (Int.ofNat j * step) 0) (max (w - cw) 0) := by
    intro i j hij
    rcases le_or_lt 0 step with hst | hst
    · refine min_le_min (max_le_max ?_ le_rfl) le_rfl
      exact mul_le_mul_of_nonneg_right (Int.ofNat_le.mpr hij) hst
    · have hi : Int.ofNat i * step ≤ 0 :=
        mul_nonpos_iff.mpr (Or.inl ⟨Int.ofNat_nonneg i, hst.le⟩)
      rw [max_eq_right hi, min_eq_left hM]
      exact le_min (le_max_right _ _) hM
  have hbound : ∀ x ∈ columnOffsets w cw step n, 0 ≤ x ∧ x ≤ max (w - cw) 0 := by
    intro x hx
    rw [hco] at hx
    obtain ⟨col, _, hcol⟩ := List.mem_map.mp hx
    subst hcol
    exact ⟨le_min (le_max_right _ _) hM, min_le_right _ _⟩
  refine ⟨?_, ?_, hbound, ?_⟩
  · intro hn
    obtain ⟨m, rfl⟩ := Nat.exists_eq_succ_of_ne_zero (Nat.pos_iff_ne_zero.mp hn)
    rw [hco, List.range_succ_eq_map, List.map_cons, List.head?_cons]
    simp [min_eq_left hM]
  · rw [hco, List.pairwise_map]
    exact (List.pairwise_lt_range n).imp fun h => hmono _ _ h.le
  · intro hcw x hx
    have h2 := (hbound x hx).2
    rw [max_eq_left (by omega : (0 : Int) ≤ w - cw)] at h2
    omega

/-- Witness for C2 (amended) at the spec's example geometry. -/
theorem columnOffsets_props_witness :
    (columnOffsets 600 150 160 4).head? = some 0 ∧
    (∀ x ∈ columnOffsets 600 150 160 4, x + 150 ≤ 600) :=
  ⟨(columnOffsets_props 600 150 160 4).1 (by decide),
   (columnOffsets_props 600 150 160 4).2.2.2 (by decide)⟩

/-- Helper: with a strictly negative row gap, the first loop iteration's
jitter draw `random.randint(-row_gap, row_gap)` has an empty range and
raises `ValueError`. -/
theorem columnLoop_neg_rowGap (fuel n : Nat) (x cardH rg H y : Int) (s : Nat)
    (hy : y < H) (hn : n ≠ 0) (hrg : rg < 0) :
    columnLoop (fuel + 1) n x cardH rg H y s = Except.error RunError.valueError := by
  have hr : ¬ (-rg ≤ rg) := by omega
  simp [columnLoop, choiceM, randintM, hy, hn, hr]

/-- Helper: a strictly negative row gap makes the first column's loop fail
with `ValueError` as soon as there is at least one column and one card. -/
theorem layoutColumns_neg_rowGap (xs : List Int) (x : Int) (n : Nat) (cardH rg H : Int)
    (s : Nat) (hch : 0 ≤ cardH) (hH : 1 ≤ H) (hn : n ≠ 0) (hrg : rg < 0) :
    layoutColumns (x :: xs) n cardH rg H s = Except.error RunError.valueError := by
  have hv : randintM 0 cardH s =
      Except.ok (((lcgNext s % (cardH - 0 + 1).toNat : Nat) : Int), lcgNext s) := by
    unfold randintM
    rw [if_pos hch]
    norm_num
  have hy : -(((lcgNext s % (cardH - 0 + 1).toNat : Nat) : Int)) < H := by
    have h0 : (0 : Int) ≤ ((lcgNext s % (cardH - 0 + 1).toNat : Nat) : Int) := Int.natCast_nonneg _
    omega
  simp only [layoutColumns, hv]
  rw [columnLoop_neg_rowGap ((H + cardH).toNat) n x cardH rg H
    (-(((lcgNext s % (cardH - 0 + 1).toNat : Nat) : Int))) (lcgNext s) hy hn hrg]

/-- C5 counterexample: with row gap −1 (and one card, canvas 1×1, column
gap 0) the layout/composite step does not produce overlapping placements —
it fails: the first jitter draw `random.randint(1, -1)` has an empty range
and raises `ValueError`.  This refutes "accepts the value without
validation and does not fail". -/
theorem negative_row_gap_cex :
    composite_background [tinyCard] 1 1 0 (-1) 0 = Except.error RunError.valueError :=
  rfl

/-- C5 (amended): a strictly negative row gap is accepted with no prior
validation — the failure is not a range check but the first jitter draw
itself: whenever the pipeline reaches the placement loop (at least one
card, nonzero pitch, canvas height ≥ 1), `random.randint(-row_gap,
row_gap)` has an empty range and the composite step fails with
`ValueError`, so no placements (overlapping or otherwise) are produced. -/
theorem negative_row_gap_fails (c : Card) (rest : List Card) (w h cg rg : Int) (s : Nat)
    (hstep : (c.width : Int) + cg ≠ 0) (hh : 1 ≤ h) (hrg : rg < 0) :
    composite_background (c :: rest) w h cg rg s = Except.error RunError.valueError := by
  simp only [composite_background]
  rw [if_neg hstep]
  have hcount : (max 1 (ceilDiv (w + cg) ((c.width : Int) + cg))).toNat ≠ 0 := by
    have h1 : (1 : Int) ≤ max 1 (ceilDiv (w + cg) ((c.width : Int) + cg)) := le_max_left _ _
    omega
  obtain ⟨m, hm⟩ := Nat.exists_eq_succ_of_ne_zero hcount
  rw [hm]
  unfold columnOffsets
  rw [List.range_succ_eq_map, List.map_cons]
  rw [layoutColumns_neg_rowGap _ _ _ _ _ _ _ (Int.natCast_nonneg c.height) hh
    (by simp) hrg]

/-- Witness for C5 (amended) at a concrete input. -/
theorem negative_row_gap_fails_witness :
    composite_background [tinyCard] 2 1 0 (-3) 7 = Except.error RunError.valueError :=
  negative_row_gap_fails tinyCard [] 2 1 0 (-3) 7 (by decide) (by decide) (by decide)

/-- C4: each placement-loop iteration with `y < canvas height` first draws
a uniformly random card (one generator step for `random.choice`); the
card is recorded only if `y ≥ 0`, and when `y < 0` it is skipped while the
draw is still consumed and `y` still advances by
`card height + row gap + jitter` (one further generator step for the
jitter draw) — so in both branches the loop continues from the same
advanced `y` and the same generator state, and the subsequent random
sequence is unchanged by the skip. -/
theorem skip_negative_top (fuel n : Nat) (x cardH rowGap canvasH y : Int) (s : Nat)
    (hlt : y < canvasH) (hn : n ≠ 0) (hrg : 0 ≤ rowGap) :
    (y < 0 →
      columnLoop (fuel + 1) n x cardH rowGap canvasH y s =
        columnLoop fuel n x cardH rowGap canvasH
          (y + cardH + rowGap +
            (-rowGap + ((lcgNext (lcgNext s) % (rowGap - (-rowGap) + 1).toNat : Nat) : Int)))
          (lcgNext (lcgNext s))) ∧
    (0 ≤ y →
      columnLoop (fuel + 1) n x cardH rowGap canvasH y s =
        (columnLoop fuel n x cardH rowGap canvasH
          (y + cardH + rowGap +
            (-rowGap + ((lcgNext (lcgNext s) % (rowGap - (-rowGap) + 1).toNat : Nat) : Int)))
          (lcgNext (lcgNext s))).map
          (fun r => (⟨lcgNext s % n, x, y⟩ :: r.1, r.2))) := by
  have hr : -rowGap ≤ rowGap := by omega
  constructor
  · intro h0
    simp [columnLoop, choiceM, randintM, hlt, hn, hr, show ¬ (0 ≤ y) by omega]
  · intro h0
    simp [columnLoop, choiceM, randintM, hlt, hn, hr, h0]

/-- Witness for C4: one skipped iteration (y = −1) and one recorded
iteration (y = 0) at concrete inputs. -/
theorem skip_negative_top_witness :
    (columnLoop (2 + 1) 1 0 2 0 5 (-1) 0 =
      columnLoop 2 1 0 2 0 5
        ((-1) + 2 + 0 + (-0 + ((lcgNext (lcgNext 0) % ((0 : Int) - (-0) + 1).toNat : Nat) : Int)))
        (lcgNext (lcgNext 0))) ∧
    (columnLoop (2 + 1) 1 0 2 0 5 0 0 =
      (columnLoop 2 1 0 2 0 5
        (0 + 2 + 0 + (-0 + ((lcgNext (lcgNext 0) % ((0 : Int) - (-0) + 1).toNat : Nat) : Int)))
        (lcgNext (lcgNext 0))).map
        (fun r => (⟨lcgNext 0 % 1, 0, 0⟩ :: r.1, r.2))) :=
  ⟨(skip_negative_top 2 1 0 2 0 5 (-1) 0 (by decide) (by decide) (by decide)).1 (by decide),
   (skip_negative_top 2 1 0 2 0 5 0 0 (by decide) (by decide) (by decide)).2 (by decide)⟩

/-- Helper: with row gap 0 the jitter draw `random.randint(-0, 0)` always
returns exactly 0 (the range collapses to the single value 0), consuming
one generator step. -/
theorem randintM_zero_zero (t : Nat) : randintM (-0) 0 t = Except.ok (0, lcgNext t) := by
  norm_num [randintM]

/-- Helper for C6, by induction on the loop fuel: a successful zero-row-gap
column run yields placements whose successive y-coordinates differ by
exactly `cardH`, and whose first placement sits at the starting `y`
whenever that start is already non-negative (and never above it). -/
theorem columnLoop_zero_gap_aux (fuel : Nat) :
    ∀ (n : Nat) (x cardH canvasH y : Int) (s : Nat) (ps : List Placement) (sEnd : Nat),
    0 ≤ cardH →
    columnLoop fuel n x cardH 0 canvasH y s = Except.ok (ps, sEnd) →
    (∀ p ∈ ps.zip ps.tail, p.2.y = p.1.y + cardH) ∧
    (∀ p ∈ ps.head?, y ≤ p.y ∧ (0 ≤ y → p.y = y)) := by
  induction fuel with
  | zero =>
    intro n x cardH canvasH y s ps sEnd hch hrun
    unfold columnLoop at hrun
    by_cases hy : y < canvasH
    · rw [if_pos hy] at hrun; cases hrun
    · rw [if_neg hy] at hrun
      cases hrun
      exact ⟨fun p hp => by simp at hp, fun p hp => by simp at hp⟩
  | succ fuel ih =>
    intro n x cardH canvasH y s ps sEnd hch hrun
    unfold columnLoop at hrun
    by_cases hy : y < canvasH
    swap
    · rw [if_neg hy] at hrun
      cases hrun
      exact ⟨fun p hp => by simp at hp, fun p hp => by simp at hp⟩
    rw [if_pos hy] at hrun
    by_cases hn : n = 0
    · simp [choiceM, hn] at hrun
    have hchoice : choiceM n s = Except.ok (lcgNext s % n, lcgNext s) := by
      simp [choiceM, hn]
    simp only [hchoice, randintM_zero_zero, add_zero] at hrun
    by_cases h0 : 0 ≤ y
    · rw [if_pos h0] at hrun
      cases hrec : columnLoop fuel n x cardH 0 canvasH (y + cardH) (lcgNext (lcgNext s)) with
      | error e => rw [hrec] at hrun; simp [Except.map] at hrun
      | ok u =>
        obtain ⟨ps2, s2⟩ := u
        rw [hrec] at hrun
        simp only [Except.map, Except.ok.injEq, Prod.mk.injEq] at hrun
        obtain ⟨hps, hsE⟩ := hrun
        subst hps
        obtain ⟨hA, hB⟩ := ih n x cardH canvasH (y + cardH) (lcgNext (lcgNext s)) ps2 s2 hch hrec
        constructor
        · intro p hp
          cases hps2 : ps2 with
          | nil => rw [hps2] at hp; simp at hp
          | cons q2 rest =>
            rw [hps2] at hp
            simp only [List.tail_cons, List.zip_cons_cons, List.mem_cons] at hp
            rcases hp with hp | hp
            · subst hp
              have hq2 : q2.y = y + cardH := by
                have := hB q2 (by rw [hps2]; simp)
                exact this.2 (by omega)
              simpa using hq2
            · refine hA p ?_
              rw [hps2]
              simp only [List.tail_cons]
              exact hp
        · intro p hp
          simp only [List.head?_cons, Option.mem_def, Option.some.injEq] at hp
          subst hp
          exact ⟨le_refl _, fun _ => rfl⟩
    · rw [if_neg h0] at hrun
      obtain ⟨hA, hB⟩ := ih n x cardH canvasH (y + cardH) (lcgNext (lcgNext s)) ps sEnd hch hrun
      refine ⟨hA, ?_⟩
      intro p hp
      obtain ⟨h1, h2⟩ := hB p hp
      exact ⟨by omega, fun hy0 => absurd hy0 h0⟩

/-- C6: with row gap 0, every jitter draw yields exactly 0 (the range
`[-0, 0]` collapses to the single value 0), and within any single column
the y-coordinates of successive recorded placements differ by exactly the
card height. -/
theorem zero_row_gap_exact_spacing (fuel n : Nat) (x cardH canvasH y : Int) (s : Nat)
    (ps : List Placement) (sEnd : Nat)
    (hch : 0 ≤ cardH)
    (hrun : columnLoop fuel n x cardH 0 canvasH y s = Except.ok (ps, sEnd)) :
    (∀ t : Nat, randintM (-0) 0 t = Except.ok (0, lcgNext t)) ∧
    (∀ p ∈ ps.zip ps.tail, p.2.y = p.1.y + cardH) :=
  ⟨randintM_zero_zero,
   (columnLoop_zero_gap_aux fuel n x cardH canvasH y s ps sEnd hch hrun).1⟩

/-- Witness for C6: a concrete zero-row-gap column (card height 2, canvas
height 5) places cards at y = 0, 2, 4, each exactly card height apart. -/
theorem zero_row_gap_exact_spacing_witness :
    (randintM (-0) 0 99 = Except.ok (0, lcgNext 99)) ∧
    (∀ p ∈ (([⟨0, 0, 0⟩, ⟨0, 0, 2⟩, ⟨0, 0, 4⟩] : List Placement).zip
        ([⟨0, 0, 0⟩, ⟨0, 0, 2⟩, ⟨0, 0, 4⟩] : List Placement).tail),
      p.2.y = p.1.y + 2) :=
  have h := zero_row_gap_exact_spacing 5 1 0 2 5 0 0 _ _ (by decide) rfl
  ⟨h.1 99, h.2⟩

/-- Helper: a successful `random.randint(a, b)` draw lies in `[a, b]`. -/
theorem randintM_bounds (a b : Int) (s : Nat) (j : Int) (s2 : Nat)
    (h : randintM a b s = Except.ok (j, s2)) : a ≤ j ∧ j ≤ b := by
  unfold randintM at h
  by_cases hab : a ≤ b
  · rw [if_pos hab] at h
    simp only [Except.ok.injEq, Prod.mk.injEq] at h
    obtain ⟨hj, _⟩ := h
    subst hj
    have hm : lcgNext s % (b - a + 1).toNat < (b - a + 1).toNat :=
      Nat.mod_lt _ (by omega)
    have hcast : ((lcgNext s % (b - a + 1).toNat : Nat) : Int) < ((b - a + 1).toNat : Int) := by
      exact_mod_cast hm
    have h2 : (((b - a + 1).toNat : Nat) : Int) = b - a + 1 := Int.toNat_of_nonneg (by omega)
    have h0 : (0 : Int) ≤ ((lcgNext s % (b - a + 1).toNat : Nat) : Int) := Int.natCast_nonneg _
    omega
  · rw [if_neg hab] at h; cases h

/-- Helper for C9: whenever there is at least one card, the card height is
at least 1 and the row gap is non-negative, fuel `(canvasH - y).toNat`
suffices for the column loop: every iteration advances `y` by at least the
card height, so the loop completes (no error at all, in particular no
`outOfFuel`). -/
theorem columnLoop_terminates (fuel : Nat) :
    ∀ (n : Nat) (x cardH rowGap canvasH y : Int) (s : Nat),
    n ≠ 0 → 1 ≤ cardH → 0 ≤ rowGap → (canvasH - y).toNat ≤ fuel →
    ∃ out, columnLoop fuel n x cardH rowGap canvasH y s = Except.ok out := by
  induction fuel with
  | zero =>
    intro n x cardH rowGap canvasH y s hn hch hrg hfuel
    have hy : ¬ (y < canvasH) := by omega
    exact ⟨([], s), by unfold columnLoop; rw [if_neg hy]⟩
  | succ fuel ih =>
    intro n x cardH rowGap canvasH y s hn hch hrg hfuel
    by_cases hy : y < canvasH
    · have hchoice : choiceM n s = Except.ok (lcgNext s % n, lcgNext s) := by
        simp [choiceM, hn]
      have hr : -rowGap ≤ rowGap := by omega
      obtain ⟨j, s2, hrand⟩ :
          ∃ j s2, randintM (-rowGap) rowGap (lcgNext s) = Except.ok (j, s2) :=
        ⟨_, _, by unfold randintM; rw [if_pos hr]⟩
      have hjb := randintM_bounds _ _ _ _ _ hrand
      have hstep : (canvasH - (y + cardH + rowGap + j)).toNat ≤ fuel := by omega
      obtain ⟨out, hout⟩ :=
        ih n x cardH rowGap canvasH (y + cardH + rowGap + j) s2 hn hch hrg hstep
      by_cases h0 : 0 ≤ y
      · refine ⟨(⟨lcgNext s % n, x, y⟩ :: out.1, out.2), ?_⟩
        unfold columnLoop
        rw [if_pos hy]
        simp only [hchoice, hrand, if_pos h0, hout, Except.map]
      · refine ⟨out, ?_⟩
        unfold columnLoop
        rw [if_pos hy]
        simp only [hchoice, hrand, if_neg h0, hout]
    · exact ⟨([], s), by unfold columnLoop; rw [if_neg hy]⟩

/-- Helper for C9: the per-column fuel `(canvasH + cardH).toNat + 1` chosen
by `layoutColumns` is sufficient, since each column starts at
`y = -random.randint(0, card_h) ≥ -cardH`. -/
theorem layoutColumns_terminates (xs : List Int) (n : Nat) (cardH rowGap canvasH : Int)
    (s : Nat) (hn : n ≠ 0) (hch : 1 ≤ cardH) (hrg : 0 ≤ rowGap) :
    ∃ out, layoutColumns xs n cardH rowGap canvasH s = Except.ok out := by
  induction xs generalizing s with
  | nil => exact ⟨([], s), rfl⟩
  | cons x rest ih =>
    have h0ch : (0 : Int) ≤ cardH := by omega
    obtain ⟨r, s1, hr⟩ : ∃ r s1, randintM 0 cardH s = Except.ok (r, s1) :=
      ⟨_, _, by unfold randintM; rw [if_pos h0ch]⟩
    have hrb := randintM_bounds _ _ _ _ _ hr
    have hfuel : (canvasH - (-r)).toNat ≤ (canvasH + cardH).toNat + 1 := by omega
    obtain ⟨out1, hout1⟩ := columnLoop_terminates ((canvasH + cardH).toNat + 1)
      n x cardH rowGap canvasH (-r) s1 hn hch hrg hfuel
    obtain ⟨out2, hout2⟩ := ih out1.2
    refine ⟨(out1.1 ++ out2.1, out2.2), ?_⟩
    simp only [layoutColumns, hr, hout1, hout2]

/-- C9: under the preconditions card height ≥ 1 and row gap ≥ 0 (and a
non-empty card set), each placement-loop iteration advances y by
`card height + row gap + jitter` with `jitter ≥ -row gap` — so y increases
by at least the card height per iteration — and the `while y < canvas
height` loop terminates for every canvas height: the column loop completes
within fuel `(canvasH - y).toNat`, and every column of the layout
completes with the fuel the model allots. -/
theorem placement_loop_terminates (n : Nat) (cardH rowGap : Int)
    (hn : n ≠ 0) (hch : 1 ≤ cardH) (hrg : 0 ≤ rowGap) :
    (∀ (s : Nat) (j : Int) (s2 : Nat),
      randintM (-rowGap) rowGap s = Except.ok (j, s2) →
      -rowGap ≤ j ∧ cardH ≤ cardH + rowGap + j) ∧
    (∀ (fuel : Nat) (x canvasH y : Int) (s : Nat), (canvasH - y).toNat ≤ fuel →
      ∃ out, columnLoop fuel n x cardH rowGap canvasH y s = Except.ok out) ∧
    (∀ (xs : List Int) (canvasH : Int) (s : Nat),
      ∃ out, layoutColumns xs n cardH rowGap canvasH s = Except.ok out) :=
  ⟨fun s j s2 h => by
      have hb := randintM_bounds _ _ _ _ _ h
      constructor <;> omega,
   fun fuel x canvasH y s hf =>
      columnLoop_terminates fuel n x cardH rowGap canvasH y s hn hch hrg hf,
   fun xs canvasH s => layoutColumns_terminates xs n cardH rowGap canvasH s hn hch hrg⟩

/-- Witness for C9 at a concrete input: one column, one card of height 2,
row gap 0, canvas height 3. -/
theorem placement_loop_terminates_witness :
    ∃ out, layoutColumns [0] 1 2 0 3 0 = Except.ok out :=
  (placement_loop_terminates 1 2 0 (by decide) (by decide) (by decide)).2.2 [0] 3 0

/-- Helper: the only error `random.randint` can raise is `ValueError`. -/
theorem randintM_error (a b : Int) (s : Nat) (e : RunError)
    (h : randintM a b s = Except.error e) : e = RunError.valueError := by
  unfold randintM at h
  by_cases hab : a ≤ b
  · rw [if_pos hab] at h; cases h
  · rw [if_neg hab] at h
    injection h with h1
    exact h1.symm

/-- Helper for C10: with a non-empty card set the column loop never fails
with `IndexError` (the only `IndexError` source is `random.choice` on an
empty sequence). -/
theorem columnLoop_error_kind (fuel : Nat) :
    ∀ (n : Nat) (x cardH rowGap canvasH y : Int) (s : Nat) (e : RunError), n ≠ 0 →
    columnLoop fuel n x cardH rowGap canvasH y s = Except.error e →
    e ≠ RunError.indexError := by
  induction fuel with
  | zero =>
    intro n x cardH rowGap canvasH y s e hn h
    unfold columnLoop at h
    by_cases hy : y < canvasH
    · rw [if_pos hy] at h
      injection h with h1
      subst h1
      intro hc; cases hc
    · rw [if_neg hy] at h; cases h
  | succ fuel ih =>
    intro n x cardH rowGap canvasH y s e hn h
    unfold columnLoop at h
    by_cases hy : y < canvasH
    swap
    · rw [if_neg hy] at h; cases h
    rw [if_pos hy] at h
    have hchoice : choiceM n s = Except.ok (lcgNext s % n, lcgNext s) := by
      simp [choiceM, hn]
    simp only [hchoice] at h
    cases hrand : randintM (-rowGap) rowGap (lcgNext s) with
    | error e2 =>
      simp only [hrand] at h
      injection h with h1
      subst h1
      rw [randintM_error _ _ _ _ hrand]
      intro hc; cases hc
    | ok jp =>
      obtain ⟨j, s2⟩ := jp
      simp only [hrand] at h
      by_cases h0 : 0 ≤ y
      · rw [if_pos h0] at h
        cases hrec : columnLoop fuel n x cardH rowGap canvasH (y + cardH + rowGap + j) s2 with
        | error e3 =>
          simp only [hrec, Except.map] at h
          injection h with h1
          subst h1
          exact ih n x cardH rowGap canvasH (y + cardH + rowGap + j) s2 e3 hn hrec
        | ok u =>
          simp only [hrec, Except.map] at h
          cases h
      · rw [if_neg h0] at h
        exact ih n x cardH rowGap canvasH (y + cardH + rowGap + j) s2 e hn h

/-- Helper for C10: with a non-empty card set the whole layout never fails
with `IndexError`. -/
theorem layoutColumns_error_kind (xs : List Int) :
    ∀ (n : Nat) (cardH rowGap canvasH : Int) (s : Nat) (e : RunError), n ≠ 0 →
    layoutColumns xs n cardH rowGap canvasH s = Except.error e →
    e ≠ RunError.indexError := by
  induction xs with
  | nil =>
    intro n cardH rowGap canvasH s e hn h
    cases h
  | cons x rest ih =>
    intro n cardH rowGap canvasH s e hn h
    unfold layoutColumns at h
    cases hr : randintM 0 cardH s with
    | error e1 =>
      simp only [hr] at h
      injection h with h1
      subst h1
      rw [randintM_error _ _ _ _ hr]
      intro hc; cases hc
    | ok rp =>
      obtain ⟨r, s1⟩ := rp
      simp only [hr] at h
      cases hc : columnLoop ((canvasH + cardH).toNat + 1) n x cardH rowGap canvasH (-r) s1 with
      | error e2 =>
        simp only [hc] at h
        injection h with h1
        subst h1
        exact columnLoop_error_kind _ n x cardH rowGap canvasH (-r) s1 e2 hn hc
      | ok u =>
        obtain ⟨ps, s2⟩ := u
        simp only [hc] at h
        cases hrest : layoutColumns rest n cardH rowGap canvasH s2 with
        | error e3 =>
          simp only [hrest] at h
          injection h with h1
          subst h1
          exact ih n cardH rowGap canvasH s2 e3 hn hrest
        | ok u2 =>
          simp only [hrest] at h
          cases h

/-- C10: whenever the Card Loader returns normally, the returned card list
is non-empty, and consequently the Compositor's `cards[0]` reference-
geometry access and its uniform random choice from the card list never
fail under the pipeline's call order: `composite_background` on a
loader-produced list never returns `IndexError`. -/
theorem loader_output_safe (files : List SrcFile) (t : Nat) (cs : List Card)
    (hload : load_cards files t = Except.ok cs) :
    cs ≠ [] ∧
    ∀ (w h cg rg : Int) (s : Nat),
      composite_background cs w h cg rg s ≠ Except.error RunError.indexError := by
  unfold load_cards at hload
  by_cases hp : sortByName (files.filter isPng) = []
  · rw [if_pos hp] at hload; cases hload
  · rw [if_neg hp] at hload
    injection hload with h1
    subst h1
    have hne : (sortByName (files.filter isPng)).map (resizeCard t) ≠ [] := by
      intro hc
      exact hp (List.map_eq_nil_iff.mp hc)
    refine ⟨hne, ?_⟩
    intro w h cg rg s
    cases hcs : (sortByName (files.filter isPng)).map (resizeCard t) with
    | nil => exact absurd hcs hne
    | cons c rest =>
      simp only [composite_background]
      by_cases hstep : ((c.width : Int) + cg) = 0
      · rw [if_pos hstep]; intro hcon; cases hcon
      · rw [if_neg hstep]
        cases hl : layoutColumns
            (columnOffsets w c.width ((c.width : Int) + cg)
              (max 1 (ceilDiv (w + cg) ((c.width : Int) + cg))).toNat)
            (c :: rest).length c.height rg h s with
        | error e =>
          simp only [hl]
          intro hcon
          injection hcon with h2
          exact layoutColumns_error_kind _ _ _ _ _ _ _ (by simp) hl h2
        | ok p =>
          simp only [hl]
          intro hcon
          cases hcon

/-- Witness for C10: the loader output for one 1x1 PNG file. -/
theorem loader_output_safe_witness :
    ([⟨"a.png", 1, 1, [[(0, 0, 0, 0)]]⟩] : List Card) ≠ [] ∧
    composite_background [⟨"a.png", 1, 1, [[(0, 0, 0, 0)]]⟩] 2 2 0 0 7 ≠
      Except.error RunError.indexError :=
  ⟨(loader_output_safe [tinyFile] 1 _ rfl).1,
   (loader_output_safe [tinyFile] 1 _ rfl).2 2 2 0 0 7⟩

/-- Helper: the filename order is total. -/
theorem nameLe_total : ∀ as bs : List Char, nameLe as bs = true ∨ nameLe bs as = true := by
  intro as
  induction as with
  | nil => intro bs; left; rfl
  | cons a as2 ih =>
    intro bs
    cases bs with
    | nil => right; rfl
    | cons b bs2 =>
      by_cases hab : a = b
      · subst hab
        rcases ih bs2 with h | h
        · left; simpa [nameLe] using h
        · right; simpa [nameLe] using h
      · rcases lt_or_gt_of_ne hab with h | h
        · left; simp [nameLe, hab, h]
        · right; simp [nameLe, Ne.symm hab, h]

/-- Helper: the filename order is transitive. -/
theorem nameLe_trans : ∀ as bs cs2 : List Char,
    nameLe as bs = true → nameLe bs cs2 = true → nameLe as cs2 = true := by
  intro as
  induction as with
  | nil => intro bs cs2 _ _; rfl
  | cons a as2 ih =>
    intro bs cs2 h1 h2
    cases bs with
    | nil => simp [nameLe] at h1
    | cons b bs2 =>
      cases cs2 with
      | nil => simp [nameLe] at h2
      | cons c cs3 =>
        by_cases hab : a = b <;> by_cases hbc : b = c
        · subst hab; subst hbc
          simp only [nameLe, if_pos rfl] at h1 h2 ⊢
          exact ih bs2 cs3 h1 h2
        · subst hab
          simp only [nameLe, if_pos rfl] at h1
          simp only [nameLe, if_neg hbc, decide_eq_true_eq] at h2
          simp [nameLe, hbc, h2]
        · subst hbc
          simp only [nameLe, if_neg hab, decide_eq_true_eq] at h1
          simp [nameLe, hab, h1]
        · simp only [nameLe, if_neg hab, decide_eq_true_eq] at h1
          simp only [nameLe, if_neg hbc, decide_eq_true_eq] at h2
          have hac : a < c := lt_trans h1 h2
          simp [nameLe, ne_of_lt hac, hac]

/-- Helper: membership in an insertion. -/
theorem mem_insertByName (f : SrcFile) (l : List SrcFile) (b : SrcFile) :
    b ∈ insertByName f l ↔ b = f ∨ b ∈ l := by
  induction l with
  | nil => simp [insertByName]
  | cons g gs ih =>
    unfold insertByName
    by_cases hc : nameLe f.name.data g.name.data = true
    · rw [if_pos hc]
      simp [List.mem_cons]
    · rw [if_neg hc]
      simp [List.mem_cons, ih]
      tauto

/-- Helper: insertion grows the length by one. -/
theorem length_insertByName (f : SrcFile) (l : List SrcFile) :
    (insertByName f l).length = l.length + 1 := by
  induction l with
  | nil => rfl
  | cons g gs ih =>
    unfold insertByName
    by_cases hc : nameLe f.name.data g.name.data = true
    · rw [if_pos hc]; simp
    · rw [if_neg hc]; simp [ih]

/-- Helper: sorting preserves the length (one card per file found). -/
theorem length_sortByName (l : List SrcFile) : (sortByName l).length = l.length := by
  induction l with
  | nil => rfl
  | cons f fs ih => simp [sortByName, length_insertByName, ih]

/-- Helper: inserting into a name-sorted list keeps it name-sorted. -/
theorem pairwise_insertByName (f : SrcFile) (l : List SrcFile)
    (hl : l.Pairwise (fun a b => nameLe a.name.data b.name.data = true)) :
    (insertByName f l).Pairwise (fun a b => nameLe a.name.data b.name.data = true) := by
  induction l with
  | nil => simp [insertByName]
  | cons g gs ih =>
    obtain ⟨hg, hgs⟩ := List.pairwise_cons.mp hl
    unfold insertByName
    by_cases hc : nameLe f.name.data g.name.data = true
    · rw [if_pos hc]
      refine List.Pairwise.cons ?_ hl
      intro b hb
      rcases List.mem_cons.mp hb with rfl | hb
      · exact hc
      · exact nameLe_trans _ _ _ hc (hg b hb)
    · rw [if_neg hc]
      refine List.Pairwise.cons ?_ (ih hgs)
      intro b hb
      rcases (mem_insertByName f gs b).mp hb with heq | hb
      · rcases nameLe_total f.name.data g.name.data with h | h
        · exact absurd h hc
        · rw [heq]
          exact h
      · exact hg b hb

/-- Helper: the loader's sort produces a name-sorted list. -/
theorem pairwise_sortByName (l : List SrcFile) :
    (sortByName l).Pairwise (fun a b => nameLe a.name.data b.name.data = true) := by
  induction l with
  | nil => simp [sortByName]
  | cons f fs ih => exact pairwise_insertByName f (sortByName fs) ih

/-- Helper: zipping a list with its own image under a map pairs each
element with its image. -/
theorem zip_self_map {α β : Type} (g : α → β) :
    ∀ l : List α, l.zip (l.map g) = l.map fun a => (a, g a) := by
  intro l
  induction l with
  | nil => rfl
  | cons a tl ih => simp [ih]

/-- C8 counterexample: for a 100×100 source with target height 29 the
program computes `int(100 * (29 / 100))` in binary64, where the product is
28.999999999999996, so the loaded card's width is 28 — while the exact
proportional width is 29 exactly.  The "width scaled proportionally so the
aspect ratio equals the source aspect ratio within rounding" floor
characterisation `src_w * t < (card_w + 1) * src_h` fails: 2900 < 2900 is
false. -/
theorem load_cards_width_cex :
    (load_cards [⟨"a.png", 100, 100, []⟩] 29).map (List.map Card.width) =
      Except.ok [28] ∧ ¬ (100 * 29 < (28 + 1) * 100) :=
  ⟨rfl, by decide⟩

/-- C8 (amended): a normal Card Loader return has one card per matching
image file found, in filename-sorted order; every returned card has height
exactly the configured target height, and its width is
`int(src_width * (target_height / src_height))` evaluated in IEEE-754
binary64 arithmetic (`pyResizeWidth`) — the double-precision rescale of
the source width, which preserves the source aspect ratio up to
truncation and float rounding but can land one pixel below the exact
proportional floor. -/
theorem load_cards_spec (files : List SrcFile) (t : Nat) (cs : List Card)
    (hload : load_cards files t = Except.ok cs) :
    cs.length = (files.filter isPng).length ∧
    cs.Pairwise (fun a b => nameLe a.name.data b.name.data = true) ∧
    (∀ c ∈ cs, c.height = t) ∧
    (∀ p ∈ (sortByName (files.filter isPng)).zip cs,
      p.2.name = p.1.name ∧ p.2.width = pyResizeWidth p.1.width t p.1.height) := by
  unfold load_cards at hload
  by_cases hp : sortByName (files.filter isPng) = []
  · rw [if_pos hp] at hload; cases hload
  · rw [if_neg hp] at hload
    injection hload with h1
    subst h1
    refine ⟨?_, ?_, ?_, ?_⟩
    · rw [List.length_map, length_sortByName]
    · rw [List.pairwise_map]
      exact pairwise_sortByName (files.filter isPng)
    · intro c hc
      obtain ⟨f, _, rfl⟩ := List.mem_map.mp hc
      rfl
    · intro p hp2
      rw [zip_self_map] at hp2
      obtain ⟨f, hf, rfl⟩ := List.mem_map.mp hp2
      exact ⟨rfl, rfl⟩

/-- Witness for C8 (amended): a directory with two PNG files (listed out
of order) and one non-PNG file, target height 1. -/
theorem load_cards_spec_witness :
    ([⟨"a.png", 1, 1, [[(0, 0, 0, 0)]]⟩,
      ⟨"b.png", 2, 1, [[(0, 0, 0, 0), (0, 0, 0, 0)]]⟩] : List Card).length
        = (pngDir.filter isPng).length ∧
    ([⟨"a.png", 1, 1, [[(0, 0, 0, 0)]]⟩,
      ⟨"b.png", 2, 1, [[(0, 0, 0, 0), (0, 0, 0, 0)]]⟩] : List Card).Pairwise
        (fun a b => nameLe a.name.data b.name.data = true) ∧
    (∀ c ∈ ([⟨"a.png", 1, 1, [[(0, 0, 0, 0)]]⟩,
      ⟨"b.png", 2, 1, [[(0, 0, 0, 0), (0, 0, 0, 0)]]⟩] : List Card), c.height = 1) ∧
    (∀ p ∈ (sortByName (pngDir.filter isPng)).zip
        ([⟨"a.png", 1, 1, [[(0, 0, 0, 0)]]⟩,
          ⟨"b.png", 2, 1, [[(0, 0, 0, 0), (0, 0, 0, 0)]]⟩] : List Card),
      p.2.name = p.1.name ∧ p.2.width = pyResizeWidth p.1.width 1 p.1.height) :=
  load_cards_spec pngDir 1 _ rfl
